import Mathlib

/- Verification development for the VirtualCom serial terminal (vicom.py).
   The embedding below translates the pure cores of the program into Lean:
   the CRC16/MODBUS codec, the hex frame parser/formatter, the fixed
   request/response emulation table, one iteration of the gated receiver
   loop, the inter-byte-timeout derivation, the persisted command-history
   store, and the runtime service-command dispatcher.  Strings are
   modelled as lists of characters, machine integers as Nat with explicit
   masking where the source masks, fallible code as Option/Except. -/

/-- Python str.strip default whitespace characters (ASCII model of the
    whitespace set stripped by str.strip()). -/
def pyIsSpace (c : Char) : Bool :=
  c == ' ' || c == '\t' || c == '\n' || c == '\r' || c == '\x0b' || c == '\x0c'

/-- Python s.strip(): drop whitespace from both ends of the string. -/
def pyStrip (s : List Char) : List Char :=
  ((s.dropWhile pyIsSpace).reverse.dropWhile pyIsSpace).reverse

/-- Python s.lower() (ASCII model: Char.toLower per character). -/
def pyLower (s : List Char) : List Char :=
  s.map Char.toLower

/-- POLYNOMIAL = 0xA001, the CRC16-MODBUS polynomial (vicom.py line 57). -/
def POLYNOMIAL : Nat := 0xA001

/-- Body of the inner loop of calculate_crc16 (vicom.py lines 322-325):
    if crc and 1: crc = (crc >> 1) xor POLYNOMIAL else crc >>= 1. -/
def crc_shift (crc : Nat) : Nat :=
  if crc &&& 1 = 1 then (crc >>> 1) ^^^ POLYNOMIAL else crc >>> 1

/-- Per-byte step of calculate_crc16 (vicom.py lines 320-325):
    crc ^= byte, then the shift round runs for _ in range(8). -/
def crc_byte_update (crc byte : Nat) : Nat :=
  (List.range 8).foldl (fun c _ => crc_shift c) (crc ^^^ byte)

/-- calculate_crc16 (vicom.py lines 312-327): seed 0xFFFF, fold the
    per-byte update over the data. -/
def calculate_crc16 (data : List Nat) : Nat :=
  data.foldl crc_byte_update 0xFFFF

/-- Modelled from the spec sentence: one reduction round shifts the value
    right one bit and XORs in polynomial 0xA001 whenever the low bit was
    set before the shift. -/
def crc16_spec_round (v : Nat) : Nat :=
  if v % 2 = 1 then Nat.xor (v / 2) 0xA001 else v / 2

/-- Modelled from the spec sentence: seed 0xFFFF; for each byte, XOR it
    into the running value, then apply the reduction round 8 times. -/
def crc16_spec (data : List Nat) : Nat :=
  data.foldl (fun v b => crc16_spec_round^[8] (Nat.xor v b)) 0xFFFF

theorem crc_shift_eq_spec_round : crc_shift = crc16_spec_round := by
  funext v
  unfold crc_shift crc16_spec_round
  rw [Nat.and_one_is_mod, Nat.shiftRight_eq_div_pow, pow_one]
  rfl

theorem foldl_range_eq_iterate (f : Nat → Nat) (n : Nat) (x : Nat) :
    (List.range n).foldl (fun c _ => f c) x = f^[n] x := by
  induction n with
  | zero => rfl
  | succ k ih =>
      rw [List.range_succ, List.foldl_append, ih,
        Function.iterate_succ_apply']
      rfl

theorem crc_byte_update_eq_spec (c b : Nat) :
    crc_byte_update c b = crc16_spec_round^[8] (Nat.xor c b) := by
  unfold crc_byte_update
  rw [foldl_range_eq_iterate, crc_shift_eq_spec_round]
  rfl

theorem crc_foldl_eq_spec (l : List Nat) (init : Nat) :
    l.foldl crc_byte_update init =
      l.foldl (fun v b => crc16_spec_round^[8] (Nat.xor v b)) init := by
  induction l generalizing init with
  | nil => rfl
  | cons b rest ih =>
      rw [List.foldl_cons, List.foldl_cons, crc_byte_update_eq_spec, ih]

/-- Python c in the string 0123456789ABCDEFabcdef, the character-validity
    check of send_hex_data and send_hex_data_with_crc (vicom.py 382, 398). -/
def isHexDigitPy (c : Char) : Bool :=
  "0123456789ABCDEFabcdef".toList.contains c

/-- Numeric value of a hex digit character (value of int(c, 16)). -/
def hexVal (c : Char) : Nat :=
  if '0' ≤ c ∧ c ≤ '9' then c.toNat - '0'.toNat
  else if 'a' ≤ c ∧ c ≤ 'f' then c.toNat - 'a'.toNat + 10
  else if 'A' ≤ c ∧ c ≤ 'F' then c.toNat - 'A'.toNat + 10
  else 0

/-- Python bytes.fromhex on a space-free string: decode consecutive pairs
    of hex digits into bytes; a trailing unpaired digit or a non-hex
    character raises ValueError (modelled as none). -/
def pyFromHex : List Char → Option (List Nat)
  | [] => some []
  | [_] => none
  | c1 :: c2 :: rest =>
    if isHexDigitPy c1 && isHexDigitPy c2 then
      match pyFromHex rest with
      | some bs => some ((hexVal c1 * 16 + hexVal c2) :: bs)
      | none => none
    else none

/-- send_hex_data (vicom.py 378-392): remove spaces, require every
    remaining character to be a hex digit, then bytes.fromhex; the result
    is the byte sequence written to the port (some) or a reported invalid
    HEX failure with nothing written (none, the function returns False). -/
def send_hex_data (hex_string : List Char) : Option (List Nat) :=
  let stripped := hex_string.filter (fun c => c ≠ ' ')
  if stripped.all isHexDigitPy then pyFromHex stripped else none

/-- send_hex_data_with_crc (vicom.py 394-414): same validation and
    decoding as send_hex_data, then the CRC16 of the decoded data is
    appended low byte first; the some-value is the full frame written. -/
def send_hex_data_with_crc (hex_string : List Char) : Option (List Nat) :=
  let stripped := hex_string.filter (fun c => c ≠ ' ')
  if stripped.all isHexDigitPy then
    match pyFromHex stripped with
    | some data =>
        let crc := calculate_crc16 data
        some (data ++ [crc &&& 0xFF, (crc >>> 8) &&& 0xFF])
    | none => none
  else none

/-- Python format f-string 02X for one byte value: two uppercase hex
    digits (used when vicom.py prints sent/received bytes). -/
def byteToHexPair (n : Nat) : List Char :=
  [(Nat.digitChar (n / 16)).toUpper, (Nat.digitChar (n % 16)).toUpper]

/-- Python single-space str.join over a list of fragments. -/
def joinSpace : List (List Char) → List Char
  | [] => []
  | [p] => p
  | p :: q :: rest => p ++ ' ' :: joinSpace (q :: rest)

/-- Python join(f02X for b in data): the hex display format of a byte
    sequence, space-separated two-digit uppercase pairs (vicom.py 345,
    388, 409). -/
def format_hex (data : List Nat) : List Char :=
  joinSpace (data.map byteToHexPair)

theorem pyFromHex_none_iff : ∀ t : List Char,
    (∀ c ∈ t, isHexDigitPy c = true) →
    (pyFromHex t = none ↔ t.length % 2 = 1)
  | [] => fun _ => by simp [pyFromHex]
  | [c] => fun _ => by simp [pyFromHex]
  | c1 :: c2 :: rest => fun h => by
      have h1 : isHexDigitPy c1 = true := h c1 (by simp)
      have h2 : isHexDigitPy c2 = true := h c2 (by simp)
      have ih := pyFromHex_none_iff rest (fun c hc => h c (by simp [hc]))
      simp only [pyFromHex, h1, h2, Bool.and_self, if_true, List.length_cons]
      cases hr : pyFromHex rest with
      | none =>
          have hlen : rest.length % 2 = 1 := ih.mp hr
          constructor
          · intro _
            omega
          · intro _
            rfl
      | some bs =>
          have hlen : rest.length % 2 ≠ 1 := by
            intro hh
            rw [ih.mpr hh] at hr
            cases hr
          constructor
          · intro hcontra
            cases hcontra
          · intro hodd
            omega

/-- C6: send_hex_data fails (returns False and writes nothing) exactly
    when, after removing spaces, the remaining text contains a non-hex
    character or an odd number of hex digits; otherwise it writes the
    decoded bytes and returns True (the some-case of the embedding). -/
theorem send_hex_data_invalid_iff (s : List Char) :
    send_hex_data s = none ↔
      ((∃ c ∈ s.filter (fun c => c ≠ ' '), isHexDigitPy c = false) ∨
       (s.filter (fun c => c ≠ ' ')).countP isHexDigitPy % 2 = 1) := by
  unfold send_hex_data
  by_cases hall : (s.filter (fun c => c ≠ ' ')).all isHexDigitPy
  · rw [if_pos hall]
    have hx : ∀ c ∈ s.filter (fun c => c ≠ ' '), isHexDigitPy c = true :=
      List.all_eq_true.mp hall
    have hcount : (s.filter (fun c => c ≠ ' ')).countP isHexDigitPy =
        (s.filter (fun c => c ≠ ' ')).length :=
      List.countP_eq_length.mpr hx
    have hnoex : ¬ ∃ c ∈ s.filter (fun c => c ≠ ' '), isHexDigitPy c = false := by
      rintro ⟨c, hc, hcf⟩
      rw [hx c hc] at hcf
      cases hcf
    rw [pyFromHex_none_iff _ hx, hcount]
    constructor
    · intro hodd
      exact Or.inr hodd
    · intro hor
      rcases hor with hex | hodd
      · exact absurd hex hnoex
      · exact hodd
  · rw [if_neg hall]
    constructor
    · intro _
      left
      have h2 := List.all_eq_true.not.mp hall
      push_neg at h2
      obtain ⟨c, hc, hcf⟩ := h2
      exact ⟨c, hc, by simpa using hcf⟩
    · intro _
      rfl

theorem hex_digit_upper_facts (d : Nat) (hd : d < 16) :
    isHexDigitPy (Nat.digitChar d).toUpper = true ∧
    hexVal (Nat.digitChar d).toUpper = d ∧
    (Nat.digitChar d).toUpper ≠ ' ' := by
  interval_cases d <;> refine ⟨by decide, by decide, by decide⟩

theorem filter_joinSpace : ∀ ps : List (List Char),
    (∀ p ∈ ps, ∀ c ∈ p, c ≠ ' ') →
    (joinSpace ps).filter (fun c => c ≠ ' ') = ps.flatten
  | [] => fun _ => rfl
  | [p] => fun h => by
      show p.filter (fun c => c ≠ ' ') = [p].flatten
      rw [List.filter_eq_self.mpr]
      · simp
      · intro c hc
        simpa using h p (by simp) c hc
  | p :: q :: rest => fun h => by
      have ih := filter_joinSpace (q :: rest)
        (fun r hr c hc => h r (by simp [hr]) c hc)
      show (p ++ ' ' :: joinSpace (q :: rest)).filter (fun c => c ≠ ' ') =
        (p :: q :: rest).flatten
      rw [List.filter_append, List.filter_cons, List.flatten_cons,
        List.filter_eq_self.mpr]
      · simp only [decide_not]
        simp only [decide_not] at ih
        rw [ih]
        simp
      · intro c hc
        simpa using h p (by simp) c hc

theorem pyFromHex_format : ∀ data : List Nat,
    (∀ x ∈ data, x < 256) →
    pyFromHex (data.map byteToHexPair).flatten = some data
  | [] => fun _ => rfl
  | x :: rest => fun h => by
      have hx : x < 256 := h x (by simp)
      have f1 := hex_digit_upper_facts (x / 16) (by omega)
      have f2 := hex_digit_upper_facts (x % 16) (by omega)
      have ih := pyFromHex_format rest (fun y hy => h y (by simp [hy]))
      have hxval : x / 16 * 16 + x % 16 = x := by omega
      simp only [List.map_cons, List.flatten_cons, byteToHexPair,
        List.cons_append, List.nil_append]
      simp only [pyFromHex, f1.1, f2.1, Bool.and_self, if_true, ih,
        f1.2.1, f2.2.1, hxval]

/-- C7: formatting a byte sequence as space-separated two-digit uppercase
    hex pairs and parsing the result back through the send_hex_data
    pipeline (strip spaces, decode hex digit pairs) yields the original
    bytes again. -/
theorem hex_roundtrip (data : List Nat) (h : ∀ x ∈ data, x < 256) :
    send_hex_data (format_hex data) = some data := by
  unfold send_hex_data format_hex
  have hnospace : ∀ p ∈ data.map byteToHexPair, ∀ c ∈ p, c ≠ ' ' := by
    intro p hp c hc
    obtain ⟨x, hx, rfl⟩ := List.mem_map.mp hp
    have hxx : x < 256 := h x hx
    have f1 := hex_digit_upper_facts (x / 16) (by omega)
    have f2 := hex_digit_upper_facts (x % 16) (by omega)
    simp only [byteToHexPair, List.mem_cons, List.mem_singleton,
      List.not_mem_nil] at hc
    rcases hc with rfl | rfl | hfalse
    · exact f1.2.2
    · exact f2.2.2
    · cases hfalse
  rw [filter_joinSpace _ hnospace]
  have hall : ((data.map byteToHexPair).flatten).all isHexDigitPy = true := by
    rw [List.all_eq_true]
    intro c hc
    obtain ⟨p, hp, hcp⟩ := List.mem_flatten.mp hc
    obtain ⟨x, hx, rfl⟩ := List.mem_map.mp hp
    have hxx : x < 256 := h x hx
    have f1 := hex_digit_upper_facts (x / 16) (by omega)
    have f2 := hex_digit_upper_facts (x % 16) (by omega)
    simp only [byteToHexPair, List.mem_cons, List.mem_singleton,
      List.not_mem_nil] at hcp
    rcases hcp with rfl | rfl | hfalse
    · exact f1.1
    · exact f2.1
    · cases hfalse
  rw [if_pos hall]
  exact pyFromHex_format data h

/-- Witness for C7: the round trip evaluated at the concrete frame
    AB 05 FF. -/
theorem hex_roundtrip_witness :
    send_hex_data (format_hex [0xAB, 0x05, 0xFF]) = some [0xAB, 0x05, 0xFF] :=
  hex_roundtrip [0xAB, 0x05, 0xFF] (by decide)

/-- C8: on every input accepted by the hex validator, the frame written
    by send_hex_data_with_crc is exactly the decoded data bytes followed
    by the CRC16 of those bytes, low byte first then high byte. -/
theorem send_hex_data_with_crc_frame (s : List Char) (data : List Nat)
    (h : send_hex_data s = some data) :
    send_hex_data_with_crc s =
      some (data ++ [calculate_crc16 data &&& 0xFF,
                     (calculate_crc16 data >>> 8) &&& 0xFF]) := by
  unfold send_hex_data at h
  unfold send_hex_data_with_crc
  by_cases hall : (s.filter (fun c => c ≠ ' ')).all isHexDigitPy
  · rw [if_pos hall] at h ⊢
    rw [h]
  · rw [if_neg hall] at h
    cases h

/-- Witness for C8: the CRC-suffixed frame for the concrete input 01,
    applied through the theorem at that input. -/
theorem send_hex_data_with_crc_frame_witness :
    send_hex_data_with_crc "01".toList =
      some ([1] ++ [calculate_crc16 [1] &&& 0xFF,
                    (calculate_crc16 [1] >>> 8) &&& 0xFF]) :=
  send_hex_data_with_crc_frame "01".toList [1] (by decide)

/-- C2: calculate_crc16 computes exactly the CRC16/MODBUS value described
    by the spec (seed 0xFFFF, per byte XOR then 8 shift rounds with
    polynomial 0xA001 folded in whenever the low bit was set before the
    shift), and on the empty sequence it returns 0xFFFF.  Determinism and
    purity are inherent: the embedding is a total function of its input. -/
theorem calculate_crc16_correct (data : List Nat) :
    calculate_crc16 data = crc16_spec data ∧ calculate_crc16 [] = 0xFFFF := by
  refine ⟨?_, rfl⟩
  unfold calculate_crc16 crc16_spec
  exact crc_foldl_eq_spec data 0xFFFF

/-- Python bytes-literal constructor bytes(list): valid only when every
    element is in range(0, 256); otherwise it raises ValueError. -/
def pyBytesList (xs : List Nat) : Except String (List Nat) :=
  if xs.all (fun x => x < 256) then Except.ok xs else Except.error "ValueError"

/-- process_request (vicom.py 922-933): the fixed emulation table.  The
    fourth rule builds bytes of request0 and request1 + 10, which raises
    ValueError when the second byte exceeds 0xF5; the exception escapes
    process_request (and is caught by the callers generic handler). -/
def process_request (request : List Nat) : Except String (Option (List Nat)) :=
  if request = [0x01, 0x02, 0x03] then Except.ok (some [0x01, 0x0C])
  else if request = [0x41] then Except.ok (some [0x20, 0x00])
  else if request = [0xAA, 0xBB, 0xCC] then Except.ok (some [0xDD, 0xEE])
  else if request.length = 3 ∧ request.getD 0 0 = 0x01 then
    match pyBytesList [request.getD 0 0, request.getD 1 0 + 10] with
    | Except.ok bs => Except.ok (some bs)
    | Except.error e => Except.error e
  else Except.ok none

/-- Modelled from the spec's emulation table, amended for the overflow of
    the fourth rule: 01 02 03 to 01 0C; 41 to 20 00; AA BB CC to DD EE;
    any other 3-byte input starting with 01 and second byte at most 0xF5
    to 01 followed by second byte + 10 (second byte above 0xF5 raises
    instead of answering); every other input gets no response. -/
def emulation_table_spec (request : List Nat) : Except String (Option (List Nat)) :=
  if request = [0x01, 0x02, 0x03] then Except.ok (some [0x01, 0x0C])
  else if request = [0x41] then Except.ok (some [0x20, 0x00])
  else if request = [0xAA, 0xBB, 0xCC] then Except.ok (some [0xDD, 0xEE])
  else if request.length = 3 ∧ request.getD 0 0 = 0x01 then
    if request.getD 1 0 + 10 ≤ 255 then
      Except.ok (some [0x01, request.getD 1 0 + 10])
    else Except.error "ValueError"
  else Except.ok none

/-- Counterexample to C1 as stated: the 3-byte input 01 FF 00 starts with
    0x01 and differs from the literal rules, so the claim promises the
    response 01 followed by 0xFF + 10; the code instead raises ValueError
    from the bytes constructor and produces no response at all. -/
theorem process_request_overflow_counterexample :
    process_request [0x01, 0xFF, 0x00] = Except.error "ValueError" ∧
    (process_request [0x01, 0xFF, 0x00]).isOk = false := by
  exact ⟨rfl, rfl⟩

/-- C1 (amended): process_request realizes exactly the emulation table in
    the listed priority order, first match winning, except that a 3-byte
    request starting with 0x01 whose second byte exceeds 0xF5 raises
    ValueError instead of producing the out-of-range response byte. -/
theorem process_request_eq_table (request : List Nat) :
    process_request request = emulation_table_spec request := by
  unfold process_request emulation_table_spec
  by_cases h1 : request = [0x01, 0x02, 0x03]
  · simp [h1]
  by_cases h2 : request = [0x41]
  · simp [h1, h2]
  by_cases h3 : request = [0xAA, 0xBB, 0xCC]
  · simp [h1, h2, h3]
  by_cases h4 : request.length = 3 ∧ request.getD 0 0 = 0x01
  · rw [if_neg h1, if_neg h2, if_neg h3, if_pos h4,
      if_neg h1, if_neg h2, if_neg h3, if_pos h4]
    by_cases h5 : request.getD 1 0 + 10 ≤ 255
    · rw [if_pos h5]
      have hb : pyBytesList [request.getD 0 0, request.getD 1 0 + 10] =
          Except.ok [0x01, request.getD 1 0 + 10] := by
        unfold pyBytesList
        rw [if_pos]
        · rw [h4.2]
        · simp only [List.all_cons, List.all_nil, Bool.and_true]
          rw [h4.2]
          simp only [Bool.and_eq_true, decide_eq_true_eq]
          omega
      rw [hb]
    · rw [if_neg h5]
      have hb : pyBytesList [request.getD 0 0, request.getD 1 0 + 10] =
          Except.error "ValueError" := by
        unfold pyBytesList
        rw [if_neg]
        simp only [List.all_cons, List.all_nil, Bool.and_true,
          Bool.and_eq_true, decide_eq_true_eq]
        intro hcontra
        omega
      rw [hb]
  · rw [if_neg h1, if_neg h2, if_neg h3, if_neg h4,
      if_neg h1, if_neg h2, if_neg h3, if_neg h4]

/-- State of the serial port as seen by one receiver iteration: whether
    the handle is open, the currently pending inbound bytes (in_waiting),
    and the accumulated outbound bytes written through the handle. -/
structure PortState where
  is_open : Bool
  in_waiting : List Nat
  written : List Nat
deriving DecidableEq, Repr

/-- Result of one receiver iteration: the successor port state and the
    chunk drained by ser.read in that iteration (none when ser.read was
    not invoked). -/
structure IterResult where
  state : PortState
  readChunk : Option (List Nat)
deriving DecidableEq, Repr

/-- One iteration of the receive_data loop body (vicom.py 329-360) with
    the event flag fixed for the iteration: processing_event.wait reports
    whether the event is set; when it is unset or nothing is pending the
    iteration only sleeps; otherwise ser.read drains all pending bytes as
    one chunk, process_request runs, and a truthy response is written
    back (an exception from process_request is caught and discarded). -/
def receive_iteration (eventSet : Bool) (s : PortState) : IterResult :=
  if s.is_open = false then ⟨s, none⟩
  else if eventSet = false ∨ s.in_waiting = [] then ⟨s, none⟩
  else
    match process_request s.in_waiting with
    | Except.error _ => ⟨⟨s.is_open, [], s.written⟩, some s.in_waiting⟩
    | Except.ok none => ⟨⟨s.is_open, [], s.written⟩, some s.in_waiting⟩
    | Except.ok (some resp) =>
        if resp = [] then ⟨⟨s.is_open, [], s.written⟩, some s.in_waiting⟩
        else ⟨⟨s.is_open, [], s.written ++ resp⟩, some s.in_waiting⟩

/-- C3: receive gating.  An iteration that observes the enable event
    unset leaves the port state untouched and never invokes ser.read; a
    read happens only when the event was observed set and input was
    pending, and then the whole pending chunk is consumed at once. -/
theorem receive_iteration_gating (eventSet : Bool) (s : PortState) :
    ((receive_iteration false s).state = s ∧
     (receive_iteration false s).readChunk = none) ∧
    ((receive_iteration eventSet s).readChunk.isSome = true →
      eventSet = true ∧ s.in_waiting ≠ []) ∧
    (eventSet = true → s.is_open = true → s.in_waiting ≠ [] →
      (receive_iteration eventSet s).readChunk = some s.in_waiting ∧
      (receive_iteration eventSet s).state.in_waiting = []) := by
  refine ⟨?_, ?_, ?_⟩
  · unfold receive_iteration
    by_cases hopen : s.is_open = false
    · rw [if_pos hopen]
      exact ⟨rfl, rfl⟩
    · rw [if_neg hopen, if_pos (Or.inl rfl)]
      exact ⟨rfl, rfl⟩
  · intro hsome
    unfold receive_iteration at hsome
    by_cases hopen : s.is_open = false
    · rw [if_pos hopen] at hsome
      cases hsome
    · rw [if_neg hopen] at hsome
      by_cases hskip : eventSet = false ∨ s.in_waiting = []
      · rw [if_pos hskip] at hsome
        cases hsome
      · push_neg at hskip
        exact ⟨by simpa using hskip.1, hskip.2⟩
  · intro hev hopen hpend
    unfold receive_iteration
    rw [hev, hopen]
    have hcond : ¬ (true = false ∨ s.in_waiting = []) := by
      rintro (hc | hc)
      · cases hc
      · exact hpend hc
    rw [if_neg (by simp), if_neg hcond]
    cases hpr : process_request s.in_waiting with
    | error e => exact ⟨rfl, rfl⟩
    | ok o =>
        cases o with
        | none => exact ⟨rfl, rfl⟩
        | some resp =>
            by_cases hresp : resp = []
            · simp [hresp]
            · simp [hresp]

/-- Witness for C3: a concrete enabled iteration over an open port with
    pending bytes 01 02 03 drains exactly that chunk, and a disabled
    iteration leaves the same state untouched. -/
theorem receive_iteration_gating_witness :
    (receive_iteration true ⟨true, [0x01, 0x02, 0x03], []⟩).readChunk =
      some [0x01, 0x02, 0x03] ∧
    (receive_iteration true ⟨true, [0x01, 0x02, 0x03], []⟩).state.in_waiting =
      [] ∧
    (receive_iteration false ⟨true, [0x01, 0x02, 0x03], []⟩).state =
      ⟨true, [0x01, 0x02, 0x03], []⟩ := by
  refine ⟨?_, ?_, ?_⟩
  · exact ((receive_iteration_gating true ⟨true, [0x01, 0x02, 0x03], []⟩).2.2
      rfl rfl (by decide)).1
  · exact ((receive_iteration_gating true ⟨true, [0x01, 0x02, 0x03], []⟩).2.2
      rfl rfl (by decide)).2
  · exact (receive_iteration_gating false ⟨true, [0x01, 0x02, 0x03], []⟩).1.1

/-- Serial parity modes offered by the configuration menu
    (vicom.py 621-627). -/
inductive Parity where
  | none
  | even
  | odd
  | mark
  | space
deriving DecidableEq, Repr

/-- PortSettings as collected by the configuration step: baud rate,
    data-bit count, parity, stop bits (1, 1.5 or 2, hence rational). -/
structure PortSettings where
  baudrate : Nat
  bytesize : Nat
  parity : Parity
  stopbits : ℚ
deriving DecidableEq, Repr

/-- bits_per_char (vicom.py 964-967): 1 start bit + data bits + stop
    bits, plus one parity bit unless parity is none. -/
def bits_per_char (s : PortSettings) : ℚ :=
  1 + s.bytesize + s.stopbits + (if s.parity = Parity.none then 0 else 1)

/-- inter_byte_timeout_calc (vicom.py 969-982): when the baud rate is
    positive, the time to transmit 20 characters plus a margin of 10
    percent but at least 0.005 s, then capped at 0.5 s; when the baud
    rate is 0 the timeout is None. -/
def inter_byte_timeout_calc (s : PortSettings) : Option ℚ :=
  if s.baudrate > 0 then
    some (if bits_per_char s * 20 / s.baudrate +
            max (5 / 1000) (bits_per_char s * 20 / s.baudrate * (1 / 10)) >
            1 / 2
          then 1 / 2
          else bits_per_char s * 20 / s.baudrate +
            max (5 / 1000) (bits_per_char s * 20 / s.baudrate * (1 / 10)))
  else none

/-- C4: for baud rate above 0 the computed inter-byte timeout equals
    min(0.5, t + max(0.005, 0.1 t)) seconds with t the 20-character
    transmission time 20 times bits-per-char over baudrate, and for baud
    rate 0 it is None (undefined). -/
theorem inter_byte_timeout_calc_correct (s : PortSettings) :
    (s.baudrate > 0 →
      inter_byte_timeout_calc s =
        some (min (1 / 2)
          (20 * bits_per_char s / s.baudrate +
            max (5 / 1000) ((1 / 10) * (20 * bits_per_char s / s.baudrate))))) ∧
    (s.baudrate = 0 → inter_byte_timeout_calc s = none) := by
  constructor
  · intro hpos
    unfold inter_byte_timeout_calc
    rw [if_pos hpos]
    have harg : bits_per_char s * 20 / (s.baudrate : ℚ) =
        20 * bits_per_char s / s.baudrate := by ring
    have hmul : 20 * bits_per_char s / (s.baudrate : ℚ) * (1 / 10) =
        (1 / 10) * (20 * bits_per_char s / s.baudrate) := by ring
    rw [harg, hmul]
    congr 1
    rcases le_or_lt (20 * bits_per_char s / (s.baudrate : ℚ) +
        max (5 / 1000) ((1 / 10) * (20 * bits_per_char s / s.baudrate)))
        (1 / 2) with hle | hgt
    · rw [if_neg (not_lt.mpr hle), min_eq_right hle]
    · rw [if_pos hgt, min_eq_left (le_of_lt hgt)]
  · intro hzero
    unfold inter_byte_timeout_calc
    rw [if_neg]
    omega

/-- Witness for C4: the default settings 38400 baud, 8 data bits, no
    parity, 1 stop bit, evaluated through the theorem. -/
theorem inter_byte_timeout_calc_correct_witness :
    inter_byte_timeout_calc ⟨38400, 8, Parity.none, 1⟩ =
      some (min (1 / 2)
        (20 * bits_per_char ⟨38400, 8, Parity.none, 1⟩ / (38400 : Nat) +
          max (5 / 1000)
            ((1 / 10) *
              (20 * bits_per_char ⟨38400, 8, Parity.none, 1⟩ / (38400 : Nat))))) :=
  (inter_byte_timeout_calc_correct ⟨38400, 8, Parity.none, 1⟩).1 (by decide)

/-- HISTORY_KEYS (vicom.py 58): the three input modes keyed in the
    history store. -/
def HISTORY_KEYS : List (List Char) :=
  ["text".toList, "hex".toList, "hex_crc".toList]

/-- The history store: a Python dict from mode name to list of commands,
    modelled as an association list that preserves key order. -/
abbrev Hist := List (List Char × List (List Char))

/-- Python dict lookup: the value stored under the first matching key. -/
def assocGet? {α : Type} : List (List Char × α) → List Char → Option α
  | [], _ => none
  | (k2, v2) :: rest, k => if k2 = k then some v2 else assocGet? rest k

/-- Python dict assignment: replace the value of an existing key in
    place, or append the binding when the key is absent. -/
def assocSet {α : Type} : List (List Char × α) → List Char → α →
    List (List Char × α)
  | [], k, v => [(k, v)]
  | (k2, v2) :: rest, k, v =>
      if k2 = k then (k, v) :: rest else (k2, v2) :: assocSet rest k v

theorem assocGet_assocSet_self {α : Type} :
    ∀ (st : List (List Char × α)) (k : List Char) (v : α),
    assocGet? (assocSet st k v) k = some v
  | [], k, v => by simp [assocSet, assocGet?]
  | (k2, v2) :: rest, k, v => by
      by_cases hk : k2 = k
      · simp [assocSet, assocGet?, hk]
      · simp only [assocSet, hk, if_false, assocGet?]
        exact assocGet_assocSet_self rest k v

theorem assocGet_assocSet_ne {α : Type} :
    ∀ (st : List (List Char × α)) (k : List Char) (v : α) (k2 : List Char),
    k2 ≠ k → assocGet? (assocSet st k v) k2 = assocGet? st k2
  | [], k, v, k2, h => by
      simp only [assocSet, assocGet?]
      rw [if_neg (fun hh => h hh.symm)]
  | (k3, v3) :: rest, k, v, k2, h => by
      by_cases hk : k3 = k
      · subst hk
        simp only [assocSet, if_pos rfl, assocGet?]
        rw [if_neg (fun hh => h hh.symm), if_neg (fun hh => h hh.symm)]
      · simp only [assocSet, hk, if_false, assocGet?]
        by_cases hk2 : k3 = k2
        · rw [if_pos hk2, if_pos hk2]
        · rw [if_neg hk2, if_neg hk2]
          exact assocGet_assocSet_ne rest k v k2 h

/-- add_command_to_history (vicom.py 136-145): strip the command; do
    nothing when it is empty or the key is absent; otherwise remove every
    prior occurrence from that mode's list and append the value at the
    end (the synchronous save touches only the disk, not the store). -/
def add_command_to_history (store : Hist) (history_key command : List Char) :
    Hist :=
  if pyStrip command = [] then store
  else
    match assocGet? store history_key with
    | none => store
    | some cur =>
        assocSet store history_key
          ((cur.filter (fun cmd => cmd ≠ pyStrip command)) ++ [pyStrip command])

/-- C5: recording a command under a mode key present in the store is a
    no-op for a value that trims to empty; otherwise the mode's list
    afterwards holds exactly one occurrence of the trimmed value, at the
    last position, with any prior occurrence removed, the relative order
    of all other entries preserved, and every other mode untouched.
    Recording the same value twice therefore still yields one occurrence,
    positioned last. -/
theorem add_command_to_history_spec (store : Hist) (key command : List Char)
    (cur : List (List Char)) (hget : assocGet? store key = some cur) :
    (pyStrip command = [] →
      add_command_to_history store key command = store) ∧
    (pyStrip command ≠ [] →
      (∃ l, assocGet? (add_command_to_history store key command) key = some l ∧
        l.count (pyStrip command) = 1 ∧
        l.getLast? = some (pyStrip command) ∧
        l.filter (fun c => c ≠ pyStrip command) =
          cur.filter (fun c => c ≠ pyStrip command)) ∧
      (∀ k2, k2 ≠ key →
        assocGet? (add_command_to_history store key command) k2 =
          assocGet? store k2)) := by
  constructor
  · intro hv
    unfold add_command_to_history
    rw [if_pos hv]
  · intro hv
    unfold add_command_to_history
    rw [if_neg hv]
    simp only [hget]
    constructor
    · refine ⟨_, assocGet_assocSet_self store key _, ?_, ?_, ?_⟩
      · rw [List.count_append]
        have h0 : (cur.filter (fun c => c ≠ pyStrip command)).count
            (pyStrip command) = 0 := by
          rw [List.count_eq_zero]
          intro hmem
          have hne := (List.mem_filter.mp hmem).2
          simp at hne
        rw [h0]
        simp
      · exact List.getLast?_concat _
      · rw [List.filter_append]
        have h1 : ([pyStrip command].filter
            (fun c => c ≠ pyStrip command)) = [] := by
          simp
        rw [h1, List.append_nil, List.filter_filter]
        simp
    · intro k2 hk2
      exact assocGet_assocSet_ne store key _ k2 hk2

/-- Witness for C5: recording a again over the store whose text history
    is a, b moves a to the end as the only occurrence and leaves the hex
    mode untouched. -/
theorem add_command_to_history_spec_witness :
    (∃ l, assocGet?
        (add_command_to_history
          [("text".toList, ["a".toList, "b".toList]),
           ("hex".toList, []), ("hex_crc".toList, [])]
          "text".toList "a".toList) "text".toList = some l ∧
      l.count (pyStrip "a".toList) = 1 ∧
      l.getLast? = some (pyStrip "a".toList) ∧
      l.filter (fun c => c ≠ pyStrip "a".toList) =
        ["a".toList, "b".toList].filter (fun c => c ≠ pyStrip "a".toList)) ∧
    assocGet?
        (add_command_to_history
          [("text".toList, ["a".toList, "b".toList]),
           ("hex".toList, []), ("hex_crc".toList, [])]
          "text".toList "a".toList) "hex".toList =
      assocGet?
        [("text".toList, ["a".toList, "b".toList]),
         ("hex".toList, []), ("hex_crc".toList, [])] "hex".toList :=
  ⟨((add_command_to_history_spec
      [("text".toList, ["a".toList, "b".toList]),
       ("hex".toList, []), ("hex_crc".toList, [])]
      "text".toList "a".toList ["a".toList, "b".toList]
      (by decide)).2 (by decide)).1,
   ((add_command_to_history_spec
      [("text".toList, ["a".toList, "b".toList]),
       ("hex".toList, []), ("hex_crc".toList, [])]
      "text".toList "a".toList ["a".toList, "b".toList]
      (by decide)).2 (by decide)).2 "hex".toList (by decide)⟩

/-- Python value decoded from JSON by json.loads, as stored in the
    history file. -/
inductive PyVal where
  | str (s : List Char)
  | int (n : Int)
  | bool (b : Bool)
  | null
  | list (items : List PyVal)
  | dict (entries : List (List Char × PyVal))

/-- Python str(v) for a decoded JSON value.  Scalars follow Python
    exactly; the rendering of nested containers is abbreviated, which no
    claim depends on (the history normalization only tests the produced
    strings for emptiness after trimming and for equality). -/
def pyStr : PyVal → List Char
  | PyVal.str s => s
  | PyVal.int n => (toString n).toList
  | PyVal.bool true => "True".toList
  | PyVal.bool false => "False".toList
  | PyVal.null => "None".toList
  | PyVal.list _ => "[...]".toList
  | PyVal.dict _ => "\x7b...\x7d".toList

/-- Inner loop of deduplicate_list_keep_last (vicom.py 98-103): walk the
    already-reversed list keeping the first occurrence of each value, the
    seen set modelled as the list of values kept so far. -/
def dedup_go (seen : List (List Char)) : List (List Char) → List (List Char)
  | [] => []
  | x :: xs => if x ∈ seen then dedup_go seen xs else x :: dedup_go (x :: seen) xs

/-- deduplicate_list_keep_last (vicom.py 96-104): iterate the reversed
    list keeping first occurrences, then reverse the result back. -/
def deduplicate_list_keep_last (items : List (List Char)) : List (List Char) :=
  (dedup_go [] items.reverse).reverse

/-- _empty_history (vicom.py 92-93): every history key bound to an empty
    list. -/
def empty_history : Hist :=
  [("text".toList, []), ("hex".toList, []), ("hex_crc".toList, [])]

/-- Body of the normalization loop of load_command_history (vicom.py
    116-120) for one key: value = data.get(key, list-default); when it is
    a list, clean it (str of each element, dropping those that trim to
    empty) and deduplicate keeping the last occurrence; otherwise leave
    the key bound to its current (empty) list. -/
def normalize_step (entries : List (List Char × PyVal)) (norm : Hist)
    (key : List Char) : Hist :=
  match (assocGet? entries key).getD (PyVal.list []) with
  | PyVal.list xs =>
      assocSet norm key
        (deduplicate_list_keep_last
          ((xs.filter (fun v => pyStrip (pyStr v) ≠ [])).map pyStr))
  | _ => norm

/-- The three states the history file can be in when load_command_history
    runs: absent, present but unreadable or not valid JSON, or parsed
    into a Python value. -/
inductive HistoryFile where
  | missing
  | malformed
  | parsed (v : PyVal)

/-- load_command_history (vicom.py 107-124): a missing file, a parse
    failure, or a top-level value that is not a dict all yield the empty
    history; a dict is normalized key by key over HISTORY_KEYS. -/
def load_command_history : HistoryFile → Hist
  | HistoryFile.missing => empty_history
  | HistoryFile.malformed => empty_history
  | HistoryFile.parsed (PyVal.dict entries) =>
      HISTORY_KEYS.foldl (normalize_step entries) empty_history
  | HistoryFile.parsed _ => empty_history

theorem dedup_go_sound : ∀ (seen l : List (List Char)),
    (dedup_go seen l).Nodup ∧
    (∀ x ∈ dedup_go seen l, x ∉ seen ∧ x ∈ l)
  | seen, [] => by simp [dedup_go]
  | seen, x :: xs => by
      by_cases hx : x ∈ seen
      · have ih := dedup_go_sound seen xs
        simp only [dedup_go, if_pos hx]
        exact ⟨ih.1, fun y hy => ⟨(ih.2 y hy).1, by simp [(ih.2 y hy).2]⟩⟩
      · have ih := dedup_go_sound (x :: seen) xs
        simp only [dedup_go, if_neg hx]
        constructor
        · refine List.nodup_cons.mpr ⟨?_, ih.1⟩
          intro hmem
          exact (ih.2 x hmem).1 (by simp)
        · intro y hy
          rcases List.mem_cons.mp hy with rfl | hy2
          · exact ⟨hx, by simp⟩
          · have h2 := ih.2 y hy2
            exact ⟨fun hs => h2.1 (by simp [hs]), by simp [h2.2]⟩

theorem deduplicate_keep_last_sound (items : List (List Char)) :
    (deduplicate_list_keep_last items).Nodup ∧
    ∀ x ∈ deduplicate_list_keep_last items, x ∈ items := by
  have h := dedup_go_sound [] items.reverse
  unfold deduplicate_list_keep_last
  constructor
  · exact List.nodup_reverse.mpr h.1
  · intro x hx
    have hx2 := (h.2 x (List.mem_reverse.mp hx)).2
    exact List.mem_reverse.mp hx2

theorem assocSet_keys {α : Type} :
    ∀ (st : List (List Char × α)) (k : List Char) (v : α),
    k ∈ st.map Prod.fst → (assocSet st k v).map Prod.fst = st.map Prod.fst
  | [], k, v, h => by simp at h
  | (k2, v2) :: rest, k, v, h => by
      by_cases hk : k2 = k
      · simp [assocSet, hk]
      · have hmem : k ∈ rest.map Prod.fst := by
          simp only [List.map_cons, List.mem_cons] at h
          rcases h with h | h
          · exact absurd h.symm hk
          · exact h
        simp [assocSet, hk, assocSet_keys rest k v hmem]

theorem assocSet_mem {α : Type} :
    ∀ (st : List (List Char × α)) (k : List Char) (v : α)
      (p : List Char × α),
    p ∈ assocSet st k v → p = (k, v) ∨ p ∈ st
  | [], k, v, p, h => by
      simp only [assocSet, List.mem_singleton] at h
      exact Or.inl h
  | (k2, v2) :: rest, k, v, p, h => by
      by_cases hk : k2 = k
      · simp only [assocSet, if_pos hk, List.mem_cons] at h
        rcases h with h | h
        · exact Or.inl h
        · exact Or.inr (by simp [h])
      · simp only [assocSet, if_neg hk, List.mem_cons] at h
        rcases h with h | h
        · exact Or.inr (by simp [h])
        · rcases assocSet_mem rest k v p h with h2 | h2
          · exact Or.inl h2
          · exact Or.inr (by simp [h2])

theorem normalize_step_keys (entries : List (List Char × PyVal))
    (norm : Hist) (key : List Char) (h : key ∈ norm.map Prod.fst) :
    (normalize_step entries norm key).map Prod.fst = norm.map Prod.fst := by
  unfold normalize_step
  split
  · exact assocSet_keys norm key _ h
  all_goals rfl

theorem normalize_step_mem (entries : List (List Char × PyVal))
    (norm : Hist) (key : List Char)
    (h : ∀ p ∈ norm, p.2.Nodup ∧ ∀ v ∈ p.2, pyStrip v ≠ []) :
    ∀ p ∈ normalize_step entries norm key,
      p.2.Nodup ∧ ∀ v ∈ p.2, pyStrip v ≠ [] := by
  unfold normalize_step
  split
  · intro p hp
    rcases assocSet_mem norm key _ p hp with rfl | hmem
    · constructor
      · exact (deduplicate_keep_last_sound _).1
      · intro v hv
        have hv2 := (deduplicate_keep_last_sound _).2 v hv
        obtain ⟨orig, horig, rfl⟩ := List.mem_map.mp hv2
        have hcond := (List.mem_filter.mp horig).2
        simpa using hcond
    · exact h p hmem
  all_goals exact fun p hp => h p hp

/-- C10: whatever the state of the history file (missing, malformed or
    parsed JSON of any shape), the loaded store has exactly the keys
    text, hex and hex_crc in that order (other keys are dropped, non-list
    values stay empty), and every mode's list is duplicate-free and holds
    no entry that is empty after trimming. -/
theorem load_command_history_invariants (f : HistoryFile) :
    (load_command_history f).map Prod.fst = HISTORY_KEYS ∧
    ∀ p ∈ load_command_history f, p.2.Nodup ∧ ∀ v ∈ p.2, pyStrip v ≠ [] := by
  have hempty_ok : ∀ p ∈ empty_history,
      p.2.Nodup ∧ ∀ v ∈ p.2, pyStrip v ≠ [] := by decide
  cases f with
  | missing => exact ⟨rfl, hempty_ok⟩
  | malformed => exact ⟨rfl, hempty_ok⟩
  | parsed v =>
      cases v with
      | str s => exact ⟨rfl, hempty_ok⟩
      | int n => exact ⟨rfl, hempty_ok⟩
      | bool b => exact ⟨rfl, hempty_ok⟩
      | null => exact ⟨rfl, hempty_ok⟩
      | list items => exact ⟨rfl, hempty_ok⟩
      | dict entries =>
          have k1 : (normalize_step entries empty_history
              ("text".toList)).map Prod.fst = HISTORY_KEYS :=
            (normalize_step_keys entries empty_history _ (by decide)).trans rfl
          have k2 : (normalize_step entries
              (normalize_step entries empty_history ("text".toList))
              ("hex".toList)).map Prod.fst = HISTORY_KEYS :=
            (normalize_step_keys entries _ _ (by rw [k1]; decide)).trans k1
          have k3 : (normalize_step entries (normalize_step entries
              (normalize_step entries empty_history ("text".toList))
              ("hex".toList)) ("hex_crc".toList)).map Prod.fst = HISTORY_KEYS :=
            (normalize_step_keys entries _ _ (by rw [k2]; decide)).trans k2
          have m1 := normalize_step_mem entries empty_history
            ("text".toList) hempty_ok
          have m2 := normalize_step_mem entries _ ("hex".toList) m1
          have m3 := normalize_step_mem entries _ ("hex_crc".toList) m2
          exact ⟨k3, m3⟩

/-- Witness for C10: a concrete parsed history file with a duplicate, a
    blank entry, an unknown key and a non-list mode value, loaded and
    checked through the theorem. -/
theorem load_command_history_invariants_witness :
    ((load_command_history (HistoryFile.parsed (PyVal.dict
        [("text".toList, PyVal.list [PyVal.str "b".toList,
            PyVal.str "a".toList, PyVal.str " ".toList,
            PyVal.str "b".toList]),
         ("junk".toList, PyVal.str "x".toList),
         ("hex".toList, PyVal.int 7)]))).map Prod.fst = HISTORY_KEYS) ∧
    (("text".toList, ["a".toList, "b".toList]).2.Nodup ∧
      ∀ v ∈ ("text".toList, ["a".toList, "b".toList]).2, pyStrip v ≠ []) :=
  ⟨(load_command_history_invariants (HistoryFile.parsed (PyVal.dict
      [("text".toList, PyVal.list [PyVal.str "b".toList,
          PyVal.str "a".toList, PyVal.str " ".toList,
          PyVal.str "b".toList]),
       ("junk".toList, PyVal.str "x".toList),
       ("hex".toList, PyVal.int 7)]))).1,
   (load_command_history_invariants (HistoryFile.parsed (PyVal.dict
      [("text".toList, PyVal.list [PyVal.str "b".toList,
          PyVal.str "a".toList, PyVal.str " ".toList,
          PyVal.str "b".toList]),
       ("junk".toList, PyVal.str "x".toList),
       ("hex".toList, PyVal.int 7)]))).2
     ("text".toList, ["a".toList, "b".toList]) (by decide)⟩

/-- known_commands (vicom.py 871): the four service-command names. -/
def known_commands : List (List Char) :=
  ["help".toList, "init".toList, "doctor".toList, "history".toList]

/-- RUNTIME_COMMANDS (vicom.py 59): the service commands together with
    their slash-prefixed aliases. -/
def RUNTIME_COMMANDS : List (List Char) :=
  ["help".toList, "init".toList, "doctor".toList, "history".toList,
   "/help".toList, "/init".toList, "/doctor".toList, "/history".toList]

/-- The alias dict lookup of handle_runtime_command (vicom.py 861-867):
    aliases.get(command, command). -/
def applyAliases (c : List Char) : List Char :=
  if c = "/help".toList then "help".toList
  else if c = "/init".toList then "init".toList
  else if c = "/doctor".toList then "doctor".toList
  else if c = "/history".toList then "history".toList
  else c

/-- The unique-prefix fallback of handle_runtime_command (vicom.py
    869-875): when the aliased command is not a known command and it is a
    prefix of exactly one known command, it resolves to that command. -/
def resolve_runtime_command (c : List Char) : List Char :=
  if c ∈ known_commands then c
  else if (known_commands.filter (fun cmd => c.isPrefixOf cmd)).length = 1 then
    (known_commands.filter (fun cmd => c.isPrefixOf cmd)).headD c
  else c

/-- handle_runtime_command (vicom.py 849-889): strip and lowercase the
    input, map slash aliases, resolve unique prefixes, then dispatch the
    matching diagnostic and return True, or return False so that the text
    is transmitted as data. -/
def handle_runtime_command (raw_value : List Char) : Bool :=
  if resolve_runtime_command (applyAliases (pyLower (pyStrip raw_value))) =
      "help".toList then true
  else if resolve_runtime_command (applyAliases (pyLower (pyStrip raw_value))) =
      "init".toList then true
  else if resolve_runtime_command (applyAliases (pyLower (pyStrip raw_value))) =
      "doctor".toList then true
  else if resolve_runtime_command (applyAliases (pyLower (pyStrip raw_value))) =
      "history".toList then true
  else false

theorem resolve_mem_iff (c : List Char) :
    (resolve_runtime_command (applyAliases c) ∈ known_commands) ↔
      (c ∈ RUNTIME_COMMANDS ∨
       known_commands.countP (fun cmd => c.isPrefixOf cmd) = 1) := by
  by_cases h1 : c = "help".toList
  · subst h1
    decide
  by_cases h2 : c = "init".toList
  · subst h2
    decide
  by_cases h3 : c = "doctor".toList
  · subst h3
    decide
  by_cases h4 : c = "history".toList
  · subst h4
    decide
  by_cases h5 : c = "/help".toList
  · subst h5
    decide
  by_cases h6 : c = "/init".toList
  · subst h6
    decide
  by_cases h7 : c = "/doctor".toList
  · subst h7
    decide
  by_cases h8 : c = "/history".toList
  · subst h8
    decide
  have halias : applyAliases c = c := by
    unfold applyAliases
    rw [if_neg h5, if_neg h6, if_neg h7, if_neg h8]
  rw [halias]
  have hnotk : c ∉ known_commands := by
    simp only [known_commands, List.mem_cons, List.not_mem_nil, or_false]
    push_neg
    exact ⟨h1, h2, h3, h4⟩
  have hnotr : c ∉ RUNTIME_COMMANDS := by
    simp only [RUNTIME_COMMANDS, List.mem_cons, List.not_mem_nil, or_false]
    push_neg
    exact ⟨h1, h2, h3, h4, h5, h6, h7, h8⟩
  unfold resolve_runtime_command
  rw [if_neg hnotk]
  have hcnt : known_commands.countP (fun cmd => c.isPrefixOf cmd) =
      (known_commands.filter (fun cmd => c.isPrefixOf cmd)).length :=
    List.countP_eq_length_filter _ _
  by_cases hlen :
      (known_commands.filter (fun cmd => c.isPrefixOf cmd)).length = 1
  · rw [if_pos hlen]
    obtain ⟨k, hk⟩ := List.length_eq_one.mp hlen
    have hkmem : k ∈ known_commands := by
      have hmem : k ∈ known_commands.filter (fun cmd => c.isPrefixOf cmd) := by
        rw [hk]
        simp
      exact (List.mem_filter.mp hmem).1
    rw [hk]
    simp only [List.headD_cons]
    constructor
    · intro _
      right
      rw [hcnt]
      exact hlen
    · intro _
      exact hkmem
  · rw [if_neg hlen]
    constructor
    · intro hc
      exact absurd hc hnotk
    · intro hor
      rcases hor with hmem | hcount
      · exact absurd hmem hnotr
      · rw [hcnt] at hcount
        exact absurd hcount hlen

/-- C9: handle_runtime_command dispatches a diagnostic (returns True)
    exactly when the trimmed, lowercased input is one of the four service
    commands, one of their slash-prefixed aliases, or a prefix of exactly
    one of the four command names; every other input, including a prefix
    matching several commands, returns False and is transmitted as
    data. -/
theorem handle_runtime_command_iff (raw_value : List Char) :
    handle_runtime_command raw_value = true ↔
      (pyLower (pyStrip raw_value) ∈ RUNTIME_COMMANDS ∨
       known_commands.countP
         (fun cmd => (pyLower (pyStrip raw_value)).isPrefixOf cmd) = 1) := by
  have hdisp : handle_runtime_command raw_value = true ↔
      resolve_runtime_command (applyAliases (pyLower (pyStrip raw_value)))
        ∈ known_commands := by
    unfold handle_runtime_command
    simp only [known_commands, List.mem_cons, List.not_mem_nil, or_false]
    split_ifs with e1 e2 e3 e4 <;> simp_all
  rw [hdisp]
  exact resolve_mem_iff (pyLower (pyStrip raw_value))
